import Mathlib

/-!
Shallow embedding of the ascii-img-react rendering core (ripple engine,
grid sampler, contrast enhancer, character atlas and matcher), with
theorems checking the specification's claims about it.

JavaScript numbers are modelled as real numbers; byte pixel data as
natural numbers; fixed-size JS arrays as lists.
-/

/-! ## Ripple engine (src/lib/ripple.ts) -/

/-- `RippleConfig` from ripple.ts: speed, amplitude, decay, wavelength, duration. -/
structure RippleConfig where
  speed : ℝ
  amplitude : ℝ
  decay : ℝ
  wavelength : ℝ
  duration : ℝ

/-- `Ripple` from ripple.ts: origin, start time and configuration. -/
structure Ripple where
  originX : ℝ
  originY : ℝ
  startTime : ℝ
  config : RippleConfig

/-- `calculateWaveValue` from ripple.ts: the wave displacement of one ripple
at point `(x, y)` and time `currentTime`. -/
noncomputable def calculateWaveValue (x y : ℝ) (ripple : Ripple) (currentTime : ℝ) : ℝ :=
  let elapsed := currentTime - ripple.startTime
  if elapsed < 0 then 0
  else if elapsed > ripple.config.duration then 0
  else
    let dx := x - ripple.originX
    let dy := y - ripple.originY
    let distance := Real.sqrt (dx * dx + dy * dy)
    let rippleRadius := (elapsed / 1000) * ripple.config.speed
    let distFromFront := distance - rippleRadius
    let ringWidth := ripple.config.wavelength / 2
    let gaussianPulse := Real.exp (-(distFromFront * distFromFront) / (2 * ringWidth * ringWidth))
    if gaussianPulse < 0.01 then 0
    else
      let timeDecay := 1 - elapsed / ripple.config.duration
      let timeDecayEased := timeDecay * timeDecay
      let distanceDecay := Real.exp (-rippleRadius / (ripple.config.speed * 3))
      gaussianPulse * ripple.config.amplitude * timeDecayEased * distanceDecay

/-- `applyRippleToVector` from ripple.ts: sum all wave values at the cell
center, clamp to `[-0.5, 0.5]`, add to every component, clamp to `[0, 1]`. -/
noncomputable def applyRippleToVector (vector : List ℝ) (cellCenterX cellCenterY : ℝ)
    (ripples : List Ripple) (currentTime : ℝ) : List ℝ :=
  if ripples.length = 0 then vector
  else
    let totalWave :=
      ripples.foldl (fun acc r => acc + calculateWaveValue cellCenterX cellCenterY r currentTime) 0
    let clamped := max (-0.5) (min 0.5 totalWave)
    vector.map fun v => max 0 (min 1 (v + clamped))

/-- `pruneExpiredRipples` from ripple.ts: keep the ripples with
`currentTime - startTime <= duration`. -/
noncomputable def pruneExpiredRipples (ripples : List Ripple) (currentTime : ℝ) : List Ripple :=
  ripples.filter fun ripple => decide (currentTime - ripple.startTime ≤ ripple.config.duration)

/-- `hasActiveRipples` from ripple.ts: some ripple satisfies
`currentTime - startTime <= duration`. -/
noncomputable def hasActiveRipples (ripples : List Ripple) (currentTime : ℝ) : Bool :=
  ripples.any fun ripple => decide (currentTime - ripple.startTime ≤ ripple.config.duration)

/-! ## Grid sampler (src/lib/grid.ts part of the bundle) -/

/-- The pixel buffer: width, height and RGBA byte data (4 bytes per pixel). -/
structure ImageData where
  width : ℕ
  height : ℕ
  data : List ℕ

/-- `GridConfig` from the grid sampler. -/
structure GridConfig where
  cellWidth : ℝ
  cellHeight : ℝ
  samplesPerCircle : ℕ
  circleRadius : ℝ

/-- The six staggered sampling circle positions within a cell. -/
def CIRCLE_POSITIONS : List (ℝ × ℝ) :=
  [(0.25, 0.17), (0.75, 0.25), (0.25, 0.50), (0.75, 0.50), (0.25, 0.75), (0.75, 0.83)]

/-- `rgbToLightness`: ITU-R BT.709 relative luminance, scaled to `[0, 1]`. -/
noncomputable def rgbToLightness (r g b : ℝ) : ℝ :=
  (0.2126 * r + 0.7152 * g + 0.0722 * b) / 255

/-- `samplePixel`: floor the coordinates, return 0 out of bounds, otherwise
the lightness of the pixel's RGB bytes. -/
noncomputable def samplePixel (imageData : ImageData) (x y : ℝ) : ℝ :=
  let ix := ⌊x⌋
  let iy := ⌊y⌋
  if ix < 0 ∨ (imageData.width : ℤ) ≤ ix ∨ iy < 0 ∨ (imageData.height : ℤ) ≤ iy then 0
  else
    let idx := (iy.toNat * imageData.width + ix.toNat) * 4
    rgbToLightness (imageData.data.getD idx 0) (imageData.data.getD (idx + 1) 0)
      (imageData.data.getD (idx + 2) 0)

/-- `sampleCircle`: average the lightness over a square grid of candidate
points restricted to the unit circle in normalized offset space. -/
noncomputable def sampleCircle (imageData : ImageData) (centerX centerY radius : ℝ)
    (numSamples : ℕ) : ℝ :=
  if numSamples = 1 then samplePixel imageData centerX centerY
  else
    let gridSize := ⌈Real.sqrt numSamples⌉₊
    let acc := (List.range gridSize).foldl (fun a gy =>
      (List.range gridSize).foldl (fun a gx =>
        let ox := ((gx : ℝ) / ((gridSize : ℝ) - 1)) * 2 - 1
        let oy := ((gy : ℝ) / ((gridSize : ℝ) - 1)) * 2 - 1
        if ox * ox + oy * oy ≤ 1 then
          (a.1 + samplePixel imageData (centerX + ox * radius) (centerY + oy * radius), a.2 + 1)
        else a) a)
      ((0 : ℝ), (0 : ℕ))
    if acc.2 > 0 then acc.1 / (acc.2 : ℝ) else 0

/-- `sampleCell`: the 6D shape vector of a grid cell, one circular sample
per entry of `CIRCLE_POSITIONS`. -/
noncomputable def sampleCell (imageData : ImageData) (cellX cellY : ℝ)
    (config : GridConfig) : List ℝ :=
  let baseX := cellX * config.cellWidth
  let baseY := cellY * config.cellHeight
  let radiusX := config.circleRadius * config.cellWidth
  let radiusY := config.circleRadius * config.cellHeight
  let avgRadius := (radiusX + radiusY) / 2
  CIRCLE_POSITIONS.map fun pos =>
    sampleCircle imageData (baseX + pos.1 * config.cellWidth) (baseY + pos.2 * config.cellHeight)
      avgRadius config.samplesPerCircle

/-- The ten external sampling circle positions just outside a cell. -/
def EXTERNAL_CIRCLE_POSITIONS : List (ℝ × ℝ) :=
  [(0.25, -0.17), (0.75, -0.08), (-0.08, 0.33), (1.08, 0.33), (-0.08, 0.67),
   (1.08, 0.67), (0.25, 0.92), (0.75, 1.08), (0.50, -0.12), (0.50, 1.00)]

/-- `sampleExternalCircles`: the 10D external shape vector of a grid cell. -/
noncomputable def sampleExternalCircles (imageData : ImageData) (cellX cellY : ℝ)
    (config : GridConfig) : List ℝ :=
  let baseX := cellX * config.cellWidth
  let baseY := cellY * config.cellHeight
  let radiusX := config.circleRadius * config.cellWidth
  let radiusY := config.circleRadius * config.cellHeight
  let avgRadius := (radiusX + radiusY) / 2
  EXTERNAL_CIRCLE_POSITIONS.map fun pos =>
    sampleCircle imageData (baseX + pos.1 * config.cellWidth) (baseY + pos.2 * config.cellHeight)
      avgRadius config.samplesPerCircle

/-! ## Character atlas and contrast enhancer (src/lib/characters.ts) -/

/-- `CharacterData` from characters.ts: a character and its 6D shape vector. -/
structure CharacterData where
  char : String
  vector : List ℝ

/-- The running per-dimension maximum computed by `normalizeCharacterVectors`:
fold over the catalog, replacing the accumulator whenever `vector[i]` exceeds
it, starting from 0. -/
noncomputable def dimMax (characters : List CharacterData) (i : ℕ) : ℝ :=
  characters.foldl
    (fun m cd => if cd.vector.getD i 0 > m then cd.vector.getD i 0 else m) 0

/-- `normalizeCharacterVectors` from characters.ts: divide each component by
that dimension's catalog maximum, or map it to 0 when the maximum is not
positive. -/
noncomputable def normalizeCharacterVectors (characters : List CharacterData) :
    List CharacterData :=
  characters.map fun cd =>
    ⟨cd.char,
     cd.vector.enum.map fun p =>
       if dimMax characters p.1 > 0 then p.2 / dimMax characters p.1 else 0⟩

/-- `AFFECTING_EXTERNAL_INDICES` from characters.ts: which external samples
affect each internal sample under directional contrast. -/
def AFFECTING_EXTERNAL_INDICES : List (List ℕ) :=
  [[0, 1, 2, 8], [0, 1, 3, 8], [2, 4, 0, 6], [3, 5, 1, 7], [4, 6, 9, 2], [5, 7, 9, 3]]

/-- `applyGlobalContrast` from characters.ts: identity for exponent at most 1
or a non-positive maximum, otherwise normalize by the vector's maximum, raise
to the exponent, and rescale. -/
noncomputable def applyGlobalContrast (vector : List ℝ) (exponent : ℝ) : List ℝ :=
  if exponent ≤ 1 then vector
  else
    match vector.maximum with
    | ⊥ => vector
    | (maxValue : ℝ) =>
      if maxValue ≤ 0 then vector
      else vector.map fun value => (value / maxValue) ^ exponent * maxValue

/-- `applyDirectionalContrast` from characters.ts: per internal dimension,
anchor the normalize-power-rescale step to the maximum of the value and its
affecting external samples. -/
noncomputable def applyDirectionalContrast (internalVector externalVector : List ℝ)
    (exponent : ℝ) : List ℝ :=
  if exponent ≤ 1 then internalVector
  else
    internalVector.enum.map fun p =>
      let maxValue := (AFFECTING_EXTERNAL_INDICES.getD p.1 []).foldl
        (fun m extIdx => if externalVector.getD extIdx 0 > m then externalVector.getD extIdx 0 else m)
        p.2
      if maxValue ≤ 0 then p.2
      else (p.2 / maxValue) ^ exponent * maxValue

/-- `applyFullContrast` from characters.ts: directional contrast first (when
external samples are present and the exponent exceeds 1), then global. -/
noncomputable def applyFullContrast (internalVector : List ℝ)
    (externalVector : Option (List ℝ)) (globalExponent directionalExponent : ℝ) : List ℝ :=
  let result := internalVector
  let result :=
    match externalVector with
    | some ext =>
      if directionalExponent > 1 then applyDirectionalContrast result ext directionalExponent
      else result
    | none => result
  if globalExponent > 1 then applyGlobalContrast result globalExponent else result

/-! ## Character matcher (src/lib/characterLookup.ts part of the bundle) -/

/-- `squaredDistance`: sum of squared component differences, iterating over
the indices of the first vector. -/
noncomputable def squaredDistance (a b : List ℝ) : ℝ :=
  (List.range a.length).foldl
    (fun sum i => sum + (a.getD i 0 - b.getD i 0) * (a.getD i 0 - b.getD i 0)) 0

/-- `findBestCharacter`: linear scan keeping the catalog entry of strictly
smallest squared distance; the running best starts as the space character
with an infinite best distance (modelled by `none`). -/
noncomputable def findBestCharacter (samplingVector : List ℝ)
    (characters : List CharacterData) : String :=
  (characters.foldl
    (fun best cd =>
      let dist := squaredDistance samplingVector cd.vector
      match best.2 with
      | none => (cd.char, some dist)
      | some bestDistance => if dist < bestDistance then (cd.char, some dist) else best)
    (" ", (none : Option ℝ))).1

/-- `BITS`: bits per quantized component. -/
def BITS : ℕ := 5

/-- `RANGE`: number of quantization buckets per component. -/
def RANGE : ℕ := 2 ^ BITS

/-- `generateCacheKey`: clamp each component below by 0, scale by `RANGE`,
floor, cap at `RANGE - 1`, and pack the per-component bucket indices by
shift-and-or. -/
noncomputable def generateCacheKey (vector : List ℝ) : ℕ :=
  vector.foldl
    (fun key v =>
      let quantized := min (RANGE - 1) (Int.toNat ⌊max 0 v * (RANGE : ℝ)⌋)
      (key <<< BITS) ||| quantized)
    0

/-- The mutable state of `CachedCharacterLookup`: the memo table (an
association list from cache key to character) and the catalog. -/
structure LookupState where
  cache : List (ℕ × String)
  characters : List CharacterData

/-- `CachedCharacterLookup.findBest`: quantize, return the memoized character
on a hit, otherwise scan the catalog with the original vector and memoize. -/
noncomputable def LookupState.findBest (s : LookupState) (samplingVector : List ℝ) :
    String × LookupState :=
  let key := generateCacheKey samplingVector
  match s.cache.lookup key with
  | some cached => (cached, s)
  | none =>
    let result := findBestCharacter samplingVector s.characters
    (result, ⟨(key, result) :: s.cache, s.characters⟩)

/-- A sequence of `findBest` calls against the same `CachedCharacterLookup`,
threading the memo table. -/
noncomputable def runLookups (s : LookupState) : List (List ℝ) → LookupState
  | [] => s
  | v :: rest => runLookups (s.findBest v).2 rest

/-- Modelled from the spec: the decoded (bucketed) representative of a cache
key — unpack the six 5-bit bucket indices and divide each by `RANGE`. The
source never decodes keys; this is the spec's reference point for the
refinement comparison. -/
noncomputable def specDecodedRepresentative (key : ℕ) : List ℝ :=
  (List.range 6).map fun i => (((key >>> (BITS * (5 - i))) &&& (RANGE - 1) : ℕ) : ℝ) / (RANGE : ℝ)

/-! ## Helper lemmas -/

/-- Folding `fun acc r => acc + f r` computes the initial value plus the sum
of the mapped list. -/
theorem foldl_add_eq_add_sum {α : Type} (f : α → ℝ) :
    ∀ (l : List α) (a : ℝ), l.foldl (fun acc r => acc + f r) a = a + (l.map f).sum := by
  intro l
  induction l with
  | nil => intro a; simp
  | cons x xs ih => intro a; simp [List.foldl_cons, ih, add_assoc]

/-- Claim C10: the `decay` field of `RippleConfig` has no effect on
`calculateWaveValue`: two ripples identical except for `decay` produce the
same wave value at every point and time. -/
theorem calculateWaveValue_decay_noninterference
    (x y ox oy st s a d₁ d₂ w dur t : ℝ) :
    calculateWaveValue x y ⟨ox, oy, st, ⟨s, a, d₁, w, dur⟩⟩ t =
      calculateWaveValue x y ⟨ox, oy, st, ⟨s, a, d₂, w, dur⟩⟩ t := rfl

/-- Claim C6: a pending ripple (negative elapsed time) or an expired ripple
(elapsed time beyond its duration) contributes a wave value of exactly 0. -/
theorem calculateWaveValue_pending_or_expired_eq_zero
    (x y : ℝ) (r : Ripple) (t : ℝ)
    (h : t - r.startTime < 0 ∨ t - r.startTime > r.config.duration) :
    calculateWaveValue x y r t = 0 := by
  rcases h with h | h
  · simp only [calculateWaveValue]
    rw [if_pos h]
  · simp only [calculateWaveValue]
    by_cases h0 : t - r.startTime < 0
    · rw [if_pos h0]
    · rw [if_neg h0, if_pos h]

/-- Concrete instance of claim C6: a ripple starting at time 1000 with
duration 2000, evaluated at time 0, is pending and contributes 0. -/
theorem calculateWaveValue_pending_or_expired_eq_zero_witness :
    calculateWaveValue 3 4 ⟨0, 0, 1000, ⟨150, 0.4, 2, 40, 2000⟩⟩ 0 = 0 :=
  calculateWaveValue_pending_or_expired_eq_zero 3 4 ⟨0, 0, 1000, ⟨150, 0.4, 2, 40, 2000⟩⟩ 0
    (Or.inl (by norm_num))

/-- Claim C3: `applyRippleToVector` is invariant under permutations of the
ripple pool — reordering the ripples yields an identical output vector. -/
theorem applyRippleToVector_perm_invariant
    (vector : List ℝ) (cx cy t : ℝ) (l₁ l₂ : List Ripple) (h : l₁.Perm l₂) :
    applyRippleToVector vector cx cy l₁ t = applyRippleToVector vector cx cy l₂ t := by
  simp only [applyRippleToVector]
  rw [foldl_add_eq_add_sum, foldl_add_eq_add_sum, h.length_eq,
    (h.map fun r => calculateWaveValue cx cy r t).sum_eq]

/-- Concrete instance of claim C3: swapping two ripples in the pool leaves
the perturbed vector unchanged. -/
theorem applyRippleToVector_perm_invariant_witness :
    applyRippleToVector [0.5, 0.25] 1 2 [⟨0, 0, 0, ⟨150, 0.4, 2, 40, 2000⟩⟩,
        ⟨9, 9, 100, ⟨100, 0.2, 1, 20, 1000⟩⟩] 50 =
      applyRippleToVector [0.5, 0.25] 1 2 [⟨9, 9, 100, ⟨100, 0.2, 1, 20, 1000⟩⟩,
        ⟨0, 0, 0, ⟨150, 0.4, 2, 40, 2000⟩⟩] 50 :=
  applyRippleToVector_perm_invariant [0.5, 0.25] 1 2 50 _ _
    (List.Perm.swap (⟨9, 9, 100, ⟨100, 0.2, 1, 20, 1000⟩⟩ : Ripple)
      (⟨0, 0, 0, ⟨150, 0.4, 2, 40, 2000⟩⟩ : Ripple) [])

/-- Claim C4: `pruneExpiredRipples` removes exactly the ripples with
`currentTime - startTime > duration`, keeps the survivors in their original
relative order, and in particular retains pending ripples (negative elapsed
time) whose duration is nonnegative. -/
theorem pruneExpiredRipples_removes_exactly_expired (pool : List Ripple) (t : ℝ) :
    pruneExpiredRipples pool t =
        pool.filter (fun r => !decide (t - r.startTime > r.config.duration)) ∧
      (pruneExpiredRipples pool t).Sublist pool ∧
      ∀ r ∈ pool, t - r.startTime < 0 → 0 ≤ r.config.duration →
        r ∈ pruneExpiredRipples pool t := by
  refine ⟨?_, List.filter_sublist pool, ?_⟩
  · apply List.filter_congr
    intro r _
    rw [← decide_not]
    exact decide_eq_decide.mpr (by rw [not_lt])
  · intro r hr h1 h2
    simp only [pruneExpiredRipples, List.mem_filter, decide_eq_true_eq]
    exact ⟨hr, le_trans (le_of_lt h1) h2⟩

/-- Concrete instance of claim C4: with a pending ripple (start time 500,
duration 2000) and an expired ripple (start time -3000, duration 1000) at
time 0, the pruned pool is a sublist of the original and retains the
pending ripple. -/
theorem pruneExpiredRipples_removes_exactly_expired_witness :
    (pruneExpiredRipples [⟨0, 0, 500, ⟨150, 0.4, 2, 40, 2000⟩⟩,
        ⟨0, 0, -3000, ⟨150, 0.4, 2, 40, 1000⟩⟩] 0).Sublist
        [⟨0, 0, 500, ⟨150, 0.4, 2, 40, 2000⟩⟩, ⟨0, 0, -3000, ⟨150, 0.4, 2, 40, 1000⟩⟩] ∧
      (⟨0, 0, 500, ⟨150, 0.4, 2, 40, 2000⟩⟩ : Ripple) ∈
        pruneExpiredRipples [⟨0, 0, 500, ⟨150, 0.4, 2, 40, 2000⟩⟩,
          ⟨0, 0, -3000, ⟨150, 0.4, 2, 40, 1000⟩⟩] 0 :=
  ⟨(pruneExpiredRipples_removes_exactly_expired _ 0).2.1,
   (pruneExpiredRipples_removes_exactly_expired _ 0).2.2 _ (by simp) (by norm_num) (by norm_num)⟩

/-- Claim C5: `hasActiveRipples` returns `false` exactly when the pool is
empty or every ripple has expired (`currentTime - startTime > duration`);
in particular a pending ripple (negative elapsed time) with nonnegative
duration makes it return `true`. -/
theorem hasActiveRipples_false_iff_all_expired (pool : List Ripple) (t : ℝ) :
    (hasActiveRipples pool t = false ↔
        (pool = [] ∨ ∀ r ∈ pool, t - r.startTime > r.config.duration)) ∧
      ∀ r ∈ pool, t - r.startTime < 0 → 0 ≤ r.config.duration →
        hasActiveRipples pool t = true := by
  constructor
  · constructor
    · intro h
      right
      intro r hr
      by_contra hc
      push_neg at hc
      have : hasActiveRipples pool t = true := by
        simp only [hasActiveRipples, List.any_eq_true, decide_eq_true_eq]
        exact ⟨r, hr, hc⟩
      rw [this] at h
      exact Bool.noConfusion h
    · intro h
      rcases h with h | h
      · simp [hasActiveRipples, h]
      · simp only [hasActiveRipples, List.any_eq_false, decide_eq_true_eq]
        intro r hr
        simpa using not_le_of_lt (h r hr)
  · intro r hr h1 h2
    simp only [hasActiveRipples, List.any_eq_true, decide_eq_true_eq]
    exact ⟨r, hr, le_trans (le_of_lt h1) h2⟩

/-- Concrete instance of claim C5: a pool holding a single pending ripple
(start time 500, duration 2000) reports active at time 0. -/
theorem hasActiveRipples_false_iff_all_expired_witness :
    hasActiveRipples [⟨0, 0, 500, ⟨150, 0.4, 2, 40, 2000⟩⟩] 0 = true :=
  (hasActiveRipples_false_iff_all_expired _ 0).2 ⟨0, 0, 500, ⟨150, 0.4, 2, 40, 2000⟩⟩
    (by simp) (by norm_num) (by norm_num)

/-- Counterexample to claim C1: on the empty catalog `findBestCharacter` does
not signal an invalid-configuration condition — it silently returns the
fallback space character for the all-zero sampling vector. -/
theorem findBestCharacter_empty_counterexample :
    findBestCharacter (List.replicate 6 0) [] = " " := rfl

/-- Claim C1 as amended: for every sampling vector, `findBestCharacter` on
the empty catalog silently returns the fallback space character (the
initialized running best); no error is signalled. -/
theorem findBestCharacter_empty_returns_space (v : List ℝ) :
    findBestCharacter v [] = " " := rfl

/-- Unfolding lemma for `applyGlobalContrast` once the vector's maximum is
known and the exponent exceeds 1. -/
theorem applyGlobalContrast_of_maximum (vector : List ℝ) (e m : ℝ)
    (he : ¬ e ≤ 1) (h : vector.maximum = (m : WithBot ℝ)) :
    applyGlobalContrast vector e =
      if m ≤ 0 then vector else vector.map fun value => (value / m) ^ e * m := by
  unfold applyGlobalContrast
  rw [if_neg he, h]

/-- Claim C9: `applyGlobalContrast` is the identity when the exponent is at
most 1 or when the vector's maximum component is not positive; otherwise it
maps each component `v` to `(v / max) ^ exponent * max` for the vector's
maximum component `max`. -/
theorem applyGlobalContrast_cases (vector : List ℝ) (e : ℝ) :
    (e ≤ 1 → applyGlobalContrast vector e = vector) ∧
      (∀ m, m ∈ vector → (∀ x ∈ vector, x ≤ m) → m ≤ 0 →
        applyGlobalContrast vector e = vector) ∧
      (∀ m, m ∈ vector → (∀ x ∈ vector, x ≤ m) → 0 < m → 1 < e →
        applyGlobalContrast vector e = vector.map fun v => (v / m) ^ e * m) := by
  refine ⟨?_, ?_, ?_⟩
  · intro h
    simp [applyGlobalContrast, h]
  · intro m hm hle hm0
    by_cases he : e ≤ 1
    · simp [applyGlobalContrast, he]
    · rw [applyGlobalContrast_of_maximum vector e m he
        (List.maximum_eq_coe_iff.mpr ⟨hm, hle⟩), if_pos hm0]
  · intro m hm hle hm0 he
    rw [applyGlobalContrast_of_maximum vector e m (not_le.mpr he)
      (List.maximum_eq_coe_iff.mpr ⟨hm, hle⟩), if_neg (not_le.mpr hm0)]

/-- Concrete instance of claim C9: on `[0.5, 1]` with exponent 2 the result
is the normalize-power-rescale image with maximum component 1. -/
theorem applyGlobalContrast_cases_witness :
    applyGlobalContrast [0.5, 1] 2 = [0.5, 1].map fun v => (v / 1) ^ (2 : ℝ) * 1 :=
  (applyGlobalContrast_cases [0.5, 1] 2).2.2 1 (by norm_num) (by
    intro x hx
    rcases List.mem_pair.mp hx with h | h
    all_goals rw [h]
    all_goals norm_num) (by norm_num) (by norm_num)

/-- A single pixel sample is never negative. -/
theorem samplePixel_nonneg (imageData : ImageData) (x y : ℝ) :
    0 ≤ samplePixel imageData x y := by
  unfold samplePixel
  dsimp only
  split_ifs with h
  · exact le_refl 0
  · unfold rgbToLightness
    positivity

/-- A fold whose step preserves nonnegativity of the first component yields
a nonnegative first component. -/
theorem foldl_fst_nonneg {α : Type} (f : ℝ × ℕ → α → ℝ × ℕ)
    (hf : ∀ a x, 0 ≤ a.1 → 0 ≤ (f a x).1) :
    ∀ (l : List α) (a : ℝ × ℕ), 0 ≤ a.1 → 0 ≤ (l.foldl f a).1 := by
  intro l
  induction l with
  | nil => intro a ha; simpa using ha
  | cons x xs ih => intro a ha; exact ih (f a x) (hf a x ha)

/-- A circular region sample is never negative. -/
theorem sampleCircle_nonneg (imageData : ImageData) (centerX centerY radius : ℝ)
    (numSamples : ℕ) : 0 ≤ sampleCircle imageData centerX centerY radius numSamples := by
  unfold sampleCircle
  dsimp only
  split_ifs with h1 h2
  · exact samplePixel_nonneg imageData centerX centerY
  · apply div_nonneg _ (Nat.cast_nonneg _)
    apply foldl_fst_nonneg _ _ _ _ (le_refl 0)
    intro a gy ha
    apply foldl_fst_nonneg _ _ _ _ ha
    intro b gx hb
    dsimp only
    split_ifs with h3
    · exact add_nonneg hb (samplePixel_nonneg imageData _ _)
    · exact hb
  · exact le_refl 0

/-- Every component of a cell's internal shape vector is nonnegative. -/
theorem sampleCell_nonneg (imageData : ImageData) (cellX cellY : ℝ) (config : GridConfig) :
    ∀ a ∈ sampleCell imageData cellX cellY config, 0 ≤ a := by
  intro a ha
  unfold sampleCell at ha
  obtain ⟨pos, _, rfl⟩ := List.mem_map.mp ha
  exact sampleCircle_nonneg imageData _ _ _ _

/-- Every component of a cell's external shape vector is nonnegative. -/
theorem sampleExternalCircles_nonneg (imageData : ImageData) (cellX cellY : ℝ)
    (config : GridConfig) : ∀ a ∈ sampleExternalCircles imageData cellX cellY config, 0 ≤ a := by
  intro a ha
  unfold sampleExternalCircles at ha
  obtain ⟨pos, _, rfl⟩ := List.mem_map.mp ha
  exact sampleCircle_nonneg imageData _ _ _ _

/-- The second component of an enumerated list entry belongs to the list. -/
theorem snd_mem_of_mem_enum {α : Type} {l : List α} {p : ℕ × α} (hp : p ∈ l.enum) :
    p.2 ∈ l := by
  have h := List.mem_map_of_mem Prod.snd hp
  rwa [List.enum_map_snd] at h

/-- Global contrast preserves nonnegativity of shape vectors. -/
theorem applyGlobalContrast_nonneg (vector : List ℝ) (e : ℝ)
    (h : ∀ c ∈ vector, 0 ≤ c) : ∀ a ∈ applyGlobalContrast vector e, 0 ≤ a := by
  by_cases he : e ≤ 1
  · rw [(applyGlobalContrast_cases vector e).1 he]
    exact h
  · by_cases hnil : vector = []
    · subst hnil
      simp [applyGlobalContrast]
    · have hne : vector.maximum ≠ ⊥ := List.maximum_ne_bot_of_ne_nil hnil
      obtain ⟨m, hmax'⟩ := WithBot.ne_bot_iff_exists.mp hne
      have hmax := hmax'.symm
      by_cases hm : m ≤ 0
      · rw [(applyGlobalContrast_cases vector e).2.1 m (List.maximum_eq_coe_iff.mp hmax).1
          (List.maximum_eq_coe_iff.mp hmax).2 hm]
        exact h
      · rw [(applyGlobalContrast_cases vector e).2.2 m (List.maximum_eq_coe_iff.mp hmax).1
          (List.maximum_eq_coe_iff.mp hmax).2 (not_le.mp hm) (not_le.mp he)]
        intro a ha
        obtain ⟨v, hv, rfl⟩ := List.mem_map.mp ha
        have hm' := le_of_lt (not_le.mp hm)
        exact mul_nonneg (Real.rpow_nonneg (div_nonneg (h v hv) hm') e) hm'

/-- Directional contrast preserves nonnegativity of shape vectors. -/
theorem applyDirectionalContrast_nonneg (internalVector externalVector : List ℝ) (e : ℝ)
    (h : ∀ c ∈ internalVector, 0 ≤ c) :
    ∀ a ∈ applyDirectionalContrast internalVector externalVector e, 0 ≤ a := by
  unfold applyDirectionalContrast
  split_ifs with he
  · exact h
  · intro a ha
    obtain ⟨p, hp, rfl⟩ := List.mem_map.mp ha
    have hval : 0 ≤ p.2 := h p.2 (snd_mem_of_mem_enum hp)
    dsimp only
    split_ifs with hm
    · exact hval
    · have hm' := le_of_lt (not_le.mp hm)
      exact mul_nonneg (Real.rpow_nonneg (div_nonneg hval hm') e) hm'

/-- The directional-then-global contrast pipeline preserves nonnegativity. -/
theorem applyFullContrast_nonneg (internalVector : List ℝ) (externalVector : Option (List ℝ))
    (globalExponent directionalExponent : ℝ) (h : ∀ c ∈ internalVector, 0 ≤ c) :
    ∀ a ∈ applyFullContrast internalVector externalVector globalExponent directionalExponent,
      0 ≤ a := by
  unfold applyFullContrast
  rcases externalVector with _ | ext
  · dsimp only
    split_ifs with hg
    · exact applyGlobalContrast_nonneg _ _ h
    · exact h
  · dsimp only
    split_ifs with hg hd hd
    · exact applyGlobalContrast_nonneg _ _ (applyDirectionalContrast_nonneg _ ext _ h)
    · exact applyGlobalContrast_nonneg _ _ h
    · exact applyDirectionalContrast_nonneg _ ext _ h
    · exact h

/-- Ripple perturbation preserves nonnegativity of shape vectors. -/
theorem applyRippleToVector_nonneg (vector : List ℝ) (cx cy : ℝ) (ripples : List Ripple)
    (t : ℝ) (h : ∀ c ∈ vector, 0 ≤ c) :
    ∀ a ∈ applyRippleToVector vector cx cy ripples t, 0 ≤ a := by
  unfold applyRippleToVector
  split_ifs with hlen
  · exact h
  · intro a ha
    obtain ⟨v, _, rfl⟩ := List.mem_map.mp ha
    exact le_max_left 0 _

/-- Claim C8: every shape-vector-producing or shape-vector-transforming
operation preserves non-negativity: for any pixel buffer and for input
vectors with all components nonnegative, the outputs of `sampleCell`,
`sampleExternalCircles`, `applyGlobalContrast`, `applyDirectionalContrast`,
`applyFullContrast` and `applyRippleToVector` have all components
nonnegative. -/
theorem shape_vector_ops_preserve_nonneg :
    (∀ (imageData : ImageData) (cx cy : ℝ) (cfg : GridConfig),
        ∀ a ∈ sampleCell imageData cx cy cfg, 0 ≤ a) ∧
      (∀ (imageData : ImageData) (cx cy : ℝ) (cfg : GridConfig),
        ∀ a ∈ sampleExternalCircles imageData cx cy cfg, 0 ≤ a) ∧
      (∀ (v : List ℝ) (e : ℝ), (∀ c ∈ v, 0 ≤ c) →
        ∀ a ∈ applyGlobalContrast v e, 0 ≤ a) ∧
      (∀ (v ext : List ℝ) (e : ℝ), (∀ c ∈ v, 0 ≤ c) → (∀ c ∈ ext, 0 ≤ c) →
        ∀ a ∈ applyDirectionalContrast v ext e, 0 ≤ a) ∧
      (∀ (v : List ℝ) (ext : Option (List ℝ)) (ge de : ℝ), (∀ c ∈ v, 0 ≤ c) →
        (∀ l, ext = some l → ∀ c ∈ l, 0 ≤ c) →
        ∀ a ∈ applyFullContrast v ext ge de, 0 ≤ a) ∧
      (∀ (v : List ℝ) (x y t : ℝ) (pool : List Ripple), (∀ c ∈ v, 0 ≤ c) →
        ∀ a ∈ applyRippleToVector v x y pool t, 0 ≤ a) :=
  ⟨sampleCell_nonneg, sampleExternalCircles_nonneg,
   fun v e h => applyGlobalContrast_nonneg v e h,
   fun v ext e h _ => applyDirectionalContrast_nonneg v ext e h,
   fun v ext ge de h _ => applyFullContrast_nonneg v ext ge de h,
   fun v x y t pool h => applyRippleToVector_nonneg v x y pool t h⟩

/-- Concrete instance of claim C8: the operations evaluated on small
concrete inputs with nonnegative components yield nonnegative components. -/
theorem shape_vector_ops_preserve_nonneg_witness :
    (∀ a ∈ sampleCell ⟨1, 1, [255, 255, 255, 255]⟩ 0 0 ⟨6, 12, 9, 0.25⟩, 0 ≤ a) ∧
      (∀ a ∈ sampleExternalCircles ⟨1, 1, [255, 255, 255, 255]⟩ 0 0 ⟨6, 12, 9, 0.25⟩, 0 ≤ a) ∧
      (∀ a ∈ applyGlobalContrast [0.5, 1] 2, 0 ≤ a) ∧
      (∀ a ∈ applyDirectionalContrast [0.5] [1, 0, 0, 0, 0, 0, 0, 0, 0, 0] 2, 0 ≤ a) ∧
      (∀ a ∈ applyFullContrast [0.5] (some [1, 0, 0, 0, 0, 0, 0, 0, 0, 0]) 1.5 2, 0 ≤ a) ∧
      (∀ a ∈ applyRippleToVector [0.5] 3 4 [] 0, 0 ≤ a) :=
  ⟨shape_vector_ops_preserve_nonneg.1 _ 0 0 _,
   shape_vector_ops_preserve_nonneg.2.1 _ 0 0 _,
   shape_vector_ops_preserve_nonneg.2.2.1 [0.5, 1] 2 (by norm_num),
   shape_vector_ops_preserve_nonneg.2.2.2.1 [0.5] [1, 0, 0, 0, 0, 0, 0, 0, 0, 0] 2
     (by norm_num) (by norm_num),
   shape_vector_ops_preserve_nonneg.2.2.2.2.1 [0.5] (some [1, 0, 0, 0, 0, 0, 0, 0, 0, 0]) 1.5 2
     (by norm_num) (by intro l hl; cases hl; norm_num),
   shape_vector_ops_preserve_nonneg.2.2.2.2.2 [0.5] 3 4 0 [] (by norm_num)⟩

/-- The running-maximum update step of `dimMax` is `max`. -/
theorem if_gt_eq_max (m v : ℝ) : (if v > m then v else m) = max m v := by
  rcases le_or_lt v m with h | h
  · rw [if_neg (not_lt.mpr h), max_eq_left h]
  · rw [if_pos h, max_eq_right (le_of_lt h)]

/-- The initial value bounds a max-fold from below. -/
theorem le_foldl_max {α : Type} (f : α → ℝ) :
    ∀ (l : List α) (a : ℝ), a ≤ l.foldl (fun m x => max m (f x)) a := by
  intro l
  induction l with
  | nil => intro a; exact le_refl a
  | cons x xs ih => intro a; exact le_trans (le_max_left a (f x)) (ih (max a (f x)))

/-- Every mapped member bounds a max-fold from below. -/
theorem mem_le_foldl_max {α : Type} (f : α → ℝ) :
    ∀ (l : List α) (a : ℝ) (x : α), x ∈ l → f x ≤ l.foldl (fun m y => max m (f y)) a := by
  intro l
  induction l with
  | nil => intro a x hx; cases hx
  | cons y ys ih =>
    intro a x hx
    rcases List.mem_cons.mp hx with rfl | hx
    · exact le_trans (le_max_right a (f x)) (le_foldl_max f ys (max a (f x)))
    · exact ih (max a (f y)) x hx

/-- A max-fold is bounded by any bound of its initial value and members. -/
theorem foldl_max_le {α : Type} (f : α → ℝ) :
    ∀ (l : List α) (a b : ℝ), a ≤ b → (∀ x ∈ l, f x ≤ b) →
      l.foldl (fun m y => max m (f y)) a ≤ b := by
  intro l
  induction l with
  | nil => intro a b hab _; exact hab
  | cons y ys ih =>
    intro a b hab h
    exact ih (max a (f y)) b (max_le hab (h y (List.mem_cons_self y ys)))
      fun x hx => h x (List.mem_cons_of_mem y hx)

/-- A max-fold equals its initial value or some mapped member. -/
theorem foldl_max_choice {α : Type} (f : α → ℝ) :
    ∀ (l : List α) (a : ℝ),
      l.foldl (fun m y => max m (f y)) a = a ∨
        ∃ x ∈ l, l.foldl (fun m y => max m (f y)) a = f x := by
  intro l
  induction l with
  | nil => intro a; exact Or.inl rfl
  | cons y ys ih =>
    intro a
    rcases ih (max a (f y)) with h | ⟨x, hx, h⟩
    · rcases max_choice a (f y) with h' | h'
      · exact Or.inl (by rw [List.foldl_cons, h, h'])
      · exact Or.inr ⟨y, List.mem_cons_self y ys, by rw [List.foldl_cons, h, h']⟩
    · exact Or.inr ⟨x, List.mem_cons_of_mem y hx, by rw [List.foldl_cons, h]⟩

/-- `dimMax` written as a max-fold. -/
theorem dimMax_eq_foldl_max (chars : List CharacterData) (i : ℕ) :
    dimMax chars i = chars.foldl (fun m cd => max m (cd.vector.getD i 0)) 0 := by
  unfold dimMax
  simp only [if_gt_eq_max]

/-- The per-dimension catalog maximum is nonnegative. -/
theorem dimMax_nonneg (chars : List CharacterData) (i : ℕ) : 0 ≤ dimMax chars i := by
  rw [dimMax_eq_foldl_max]
  exact le_foldl_max (fun cd => cd.vector.getD i 0) chars 0

/-- Every catalog entry's component is at most the per-dimension maximum. -/
theorem getD_le_dimMax {chars : List CharacterData} {cd : CharacterData}
    (hcd : cd ∈ chars) (i : ℕ) : cd.vector.getD i 0 ≤ dimMax chars i := by
  rw [dimMax_eq_foldl_max]
  exact mem_le_foldl_max (fun cd => cd.vector.getD i 0) chars 0 cd hcd

/-- The per-dimension maximum is 0 or attained by some catalog entry. -/
theorem dimMax_attained (chars : List CharacterData) (i : ℕ) :
    dimMax chars i = 0 ∨ ∃ cd ∈ chars, dimMax chars i = cd.vector.getD i 0 := by
  rw [dimMax_eq_foldl_max]
  exact foldl_max_choice (fun cd => cd.vector.getD i 0) chars 0

/-- Component `i` of a normalized catalog entry: the source component divided
by the dimension maximum when that maximum is positive, 0 otherwise, and the
default 0 beyond the vector's length. -/
theorem normalize_vector_getD (chars : List CharacterData) (cd : CharacterData) (i : ℕ) :
    (cd.vector.enum.map fun p =>
        if dimMax chars p.1 > 0 then p.2 / dimMax chars p.1 else 0).getD i 0 =
      if i < cd.vector.length then
        (if dimMax chars i > 0 then cd.vector.getD i 0 / dimMax chars i else 0)
      else 0 := by
  by_cases h : i < cd.vector.length
  · have hm : i < (cd.vector.enum.map fun p =>
        if dimMax chars p.1 > 0 then p.2 / dimMax chars p.1 else 0).length := by
      simpa [List.enum_length] using h
    rw [if_pos h, List.getD_eq_getElem _ _ hm, List.getElem_map, List.getElem_enum,
      List.getD_eq_getElem _ _ h]
  · rw [if_neg h, List.getD_eq_default]
    simpa [List.enum_length] using not_lt.mp h

/-- `dimMax` over a normalized catalog as a fold over the source catalog. -/
theorem dimMax_normalize_eq_foldl (chars : List CharacterData) (i : ℕ) :
    dimMax (normalizeCharacterVectors chars) i =
      chars.foldl (fun m cd => max m ((cd.vector.enum.map fun p =>
        if dimMax chars p.1 > 0 then p.2 / dimMax chars p.1 else 0).getD i 0)) 0 := by
  rw [dimMax_eq_foldl_max]
  unfold normalizeCharacterVectors
  rw [List.foldl_map]

/-- A dimension whose catalog maximum is positive has maximum exactly 1
after normalization. -/
theorem dimMax_normalize_of_pos (chars : List CharacterData) (i : ℕ)
    (h : dimMax chars i > 0) : dimMax (normalizeCharacterVectors chars) i = 1 := by
  rw [dimMax_normalize_eq_foldl]
  apply le_antisymm
  · apply foldl_max_le
    · norm_num
    · intro cd hcd
      rw [normalize_vector_getD]
      split_ifs with h1
      · exact div_le_one_of_le₀ (getD_le_dimMax hcd i) (le_of_lt h)
      · norm_num
  · rcases dimMax_attained chars i with hM | ⟨cd, hcd, hM⟩
    · rw [hM] at h
      exact absurd h (lt_irrefl 0)
    · have hlen : i < cd.vector.length := by
        by_contra hc
        rw [List.getD_eq_default _ _ (not_lt.mp hc)] at hM
        rw [hM] at h
        exact absurd h (lt_irrefl 0)
      have hv : (cd.vector.enum.map fun p =>
          if dimMax chars p.1 > 0 then p.2 / dimMax chars p.1 else 0).getD i 0 = 1 := by
        rw [normalize_vector_getD, if_pos hlen, if_pos h, ← hM, div_self (ne_of_gt h)]
      calc (1 : ℝ) = (cd.vector.enum.map fun p =>
            if dimMax chars p.1 > 0 then p.2 / dimMax chars p.1 else 0).getD i 0 := hv.symm
        _ ≤ _ := mem_le_foldl_max (fun cd => (cd.vector.enum.map fun p =>
            if dimMax chars p.1 > 0 then p.2 / dimMax chars p.1 else 0).getD i 0) chars 0 cd hcd

/-- A dimension whose catalog maximum is not positive has maximum exactly 0
after normalization. -/
theorem dimMax_normalize_of_nonpos (chars : List CharacterData) (i : ℕ)
    (h : ¬ dimMax chars i > 0) : dimMax (normalizeCharacterVectors chars) i = 0 := by
  rw [dimMax_normalize_eq_foldl]
  apply le_antisymm
  · apply foldl_max_le
    · exact le_refl 0
    · intro cd _
      rw [normalize_vector_getD]
      split_ifs with h1
      · exact le_refl 0
      · exact le_refl 0
  · exact le_foldl_max (fun cd => (cd.vector.enum.map fun p =>
      if dimMax chars p.1 > 0 then p.2 / dimMax chars p.1 else 0).getD i 0) chars 0

/-- Claim C7: catalog normalization is idempotent — for a catalog of
6D vectors with nonnegative components, normalizing an already-normalized
catalog returns it unchanged, and each per-dimension maximum of a
normalized catalog is already 1 or 0. -/
theorem normalizeCharacterVectors_idempotent (chars : List CharacterData)
    (_hlen : ∀ cd ∈ chars, cd.vector.length = 6)
    (_hnn : ∀ cd ∈ chars, ∀ v ∈ cd.vector, 0 ≤ v) :
    normalizeCharacterVectors (normalizeCharacterVectors chars) =
        normalizeCharacterVectors chars ∧
      ∀ i, dimMax (normalizeCharacterVectors chars) i = 1 ∨
        dimMax (normalizeCharacterVectors chars) i = 0 := by
  constructor
  · show (normalizeCharacterVectors chars).map (fun cd =>
      (⟨cd.char, cd.vector.enum.map fun p =>
        if dimMax (normalizeCharacterVectors chars) p.1 > 0 then
          p.2 / dimMax (normalizeCharacterVectors chars) p.1 else 0⟩ : CharacterData)) =
      normalizeCharacterVectors chars
    have hid : ∀ cd' ∈ normalizeCharacterVectors chars,
        (⟨cd'.char, cd'.vector.enum.map fun p =>
          if dimMax (normalizeCharacterVectors chars) p.1 > 0 then
            p.2 / dimMax (normalizeCharacterVectors chars) p.1 else 0⟩ : CharacterData) =
          id cd' := by
      intro cd' hcd'
      obtain ⟨cd, hcd, rfl⟩ := List.mem_map.mp hcd'
      show (⟨cd.char, _⟩ : CharacterData) = _
      congr 1
      apply List.ext_getElem
      · simp [List.enum_length]
      · intro j h₁ h₂
        simp only [List.getElem_map, List.getElem_enum]
        by_cases hM : dimMax chars j > 0
        · rw [dimMax_normalize_of_pos chars j hM, if_pos (by norm_num : (1 : ℝ) > 0), div_one]
        · rw [dimMax_normalize_of_nonpos chars j hM,
            if_neg (by norm_num : ¬ (0 : ℝ) > 0)]
          exact (if_neg hM).symm
    exact (List.map_congr_left hid).trans (List.map_id _)
  · intro i
    by_cases hM : dimMax chars i > 0
    · exact Or.inl (dimMax_normalize_of_pos chars i hM)
    · exact Or.inr (dimMax_normalize_of_nonpos chars i hM)

/-- Concrete instance of claim C7: a one-entry catalog of a 6D nonnegative
vector normalizes idempotently. -/
theorem normalizeCharacterVectors_idempotent_witness :
    normalizeCharacterVectors (normalizeCharacterVectors
        [⟨"x", [1, 0, 0.5, 0, 0, 0]⟩]) =
      normalizeCharacterVectors [⟨"x", [1, 0, 0.5, 0, 0, 0]⟩] :=
  (normalizeCharacterVectors_idempotent [⟨"x", [1, 0, 0.5, 0, 0, 0]⟩]
    (by
      intro cd hcd
      rw [List.mem_singleton] at hcd
      subst hcd
      rfl)
    (by
      intro cd hcd
      rw [List.mem_singleton] at hcd
      subst hcd
      intro v hv
      simp only [List.mem_cons, List.not_mem_nil, or_false] at hv
      rcases hv with rfl | rfl | rfl | rfl | rfl | rfl <;> norm_num)).1

/-- `findBest` on a cache hit returns the memoized character and leaves the
state unchanged. -/
theorem findBest_of_lookup_some (s : LookupState) (v : List ℝ) (r : String)
    (h : s.cache.lookup (generateCacheKey v) = some r) : s.findBest v = (r, s) := by
  unfold LookupState.findBest
  dsimp only
  rw [h]

/-- `findBest` on a cache miss scans the catalog with the original vector
and memoizes the result under the vector's key. -/
theorem findBest_of_lookup_none (s : LookupState) (v : List ℝ)
    (h : s.cache.lookup (generateCacheKey v) = none) :
    s.findBest v = (findBestCharacter v s.characters,
      ⟨(generateCacheKey v, findBestCharacter v s.characters) :: s.cache, s.characters⟩) := by
  unfold LookupState.findBest
  dsimp only
  rw [h]

/-- A lookup sequence never changes the catalog. -/
theorem runLookups_characters (vs : List (List ℝ)) :
    ∀ s : LookupState, (runLookups s vs).characters = s.characters := by
  induction vs with
  | nil => intro s; rfl
  | cons v rest ih =>
    intro s
    rw [runLookups, ih]
    rcases hl : s.cache.lookup (generateCacheKey v) with _ | r
    · rw [findBest_of_lookup_none s v hl]
    · rw [findBest_of_lookup_some s v r hl]

/-- A memo entry present in the cache survives any lookup sequence. -/
theorem runLookups_lookup_some (k : ℕ) (r : String) :
    ∀ (vs : List (List ℝ)) (s : LookupState), s.cache.lookup k = some r →
      (runLookups s vs).cache.lookup k = some r := by
  intro vs
  induction vs with
  | nil => intro s h; exact h
  | cons v rest ih =>
    intro s h
    rw [runLookups]
    rcases hl : s.cache.lookup (generateCacheKey v) with _ | r'
    · rw [findBest_of_lookup_none s v hl]
      apply ih
      have hk : k ≠ generateCacheKey v := by
        intro hkk
        rw [hkk, hl] at h
        cases h
      simpa [List.lookup_cons, beq_false_of_ne hk] using h
    · rw [findBest_of_lookup_some s v r' hl]
      exact ih s h

/-- After a lookup sequence from a state whose cache misses key `k`, the
memo table holds, at `k`, the catalog scan of the first looked-up vector
whose quantization key is `k` (and nothing, if there is none). -/
theorem runLookups_lookup_of_none (k : ℕ) :
    ∀ (vs : List (List ℝ)) (s : LookupState), s.cache.lookup k = none →
      (runLookups s vs).cache.lookup k =
        (vs.find? fun w => generateCacheKey w == k).map
          fun w => findBestCharacter w s.characters := by
  intro vs
  induction vs with
  | nil => intro s h; simpa using h
  | cons v rest ih =>
    intro s h
    rw [runLookups]
    by_cases hk : generateCacheKey v = k
    · subst hk
      rw [findBest_of_lookup_none s v h]
      rw [runLookups_lookup_some (generateCacheKey v) (findBestCharacter v s.characters) rest _
        (by simp [List.lookup_cons])]
      simp [List.find?_cons]
    · rcases hl : s.cache.lookup (generateCacheKey v) with _ | r'
      · rw [findBest_of_lookup_none s v hl]
        rw [ih _ (by simpa [List.lookup_cons, beq_false_of_ne (Ne.symm hk)] using h)]
        simp [List.find?_cons, beq_false_of_ne hk]
      · rw [findBest_of_lookup_some s v r' hl]
        rw [ih s h]
        simp [List.find?_cons, beq_false_of_ne hk]

/-- Claim C2 as amended: after any prior sequence of lookups against a fresh
`CachedCharacterLookup`, `findBest v` returns the uncached catalog scan of
the first vector of the session (the priors followed by `v` itself) whose
quantization key equals `v`'s key — the memoized result of the first bucket
occupant, not a scan of the key's decoded bucketed representative. -/
theorem cached_findBest_eq_scan_of_first_collider
    (chars : List CharacterData) (vs : List (List ℝ)) (v : List ℝ) :
    ((runLookups ⟨[], chars⟩ vs).findBest v).1 =
      findBestCharacter
        ((vs.find? fun w => generateCacheKey w == generateCacheKey v).getD v) chars := by
  have hchars : (runLookups ⟨[], chars⟩ vs).characters = chars :=
    runLookups_characters vs ⟨[], chars⟩
  have hlook := runLookups_lookup_of_none (generateCacheKey v) vs ⟨[], chars⟩ rfl
  rcases hf : vs.find? fun w => generateCacheKey w == generateCacheKey v with _ | w
  · rw [hf] at hlook
    simp only [Option.map_none'] at hlook
    rw [findBest_of_lookup_none _ v hlook]
    rw [hchars]
    rfl
  · rw [hf] at hlook
    simp only [Option.map_some'] at hlook
    rw [findBest_of_lookup_some _ v _ hlook]
    rfl

/-- `squaredDistance` on two explicit 6D vectors. -/
theorem squaredDistance_six (a₀ a₁ a₂ a₃ a₄ a₅ b₀ b₁ b₂ b₃ b₄ b₅ : ℝ) :
    squaredDistance [a₀, a₁, a₂, a₃, a₄, a₅] [b₀, b₁, b₂, b₃, b₄, b₅] =
      (a₀ - b₀) * (a₀ - b₀) + (a₁ - b₁) * (a₁ - b₁) + (a₂ - b₂) * (a₂ - b₂) +
        (a₃ - b₃) * (a₃ - b₃) + (a₄ - b₄) * (a₄ - b₄) + (a₅ - b₅) * (a₅ - b₅) := by
  show 0 + (a₀ - b₀) * (a₀ - b₀) + (a₁ - b₁) * (a₁ - b₁) + (a₂ - b₂) * (a₂ - b₂) +
    (a₃ - b₃) * (a₃ - b₃) + (a₄ - b₄) * (a₄ - b₄) + (a₅ - b₅) * (a₅ - b₅) = _
  rw [zero_add]

/-- On the two-character catalog of a blank and a full glyph, the catalog
scan of the constant vector 33/64 picks the full glyph. -/
theorem findBestCharacter_colliding_query :
    findBestCharacter [33/64, 33/64, 33/64, 33/64, 33/64, 33/64]
      [⟨"a", [0, 0, 0, 0, 0, 0]⟩, ⟨"b", [1, 1, 1, 1, 1, 1]⟩] = "b" := by
  unfold findBestCharacter
  simp only [List.foldl_cons, List.foldl_nil]
  rw [if_pos (by rw [squaredDistance_six, squaredDistance_six]; norm_num)]

/-- On the same catalog, the catalog scan of the constant vector 1/2 (the
decoded bucket representative) picks the blank glyph by the first-minimum
tie-break. -/
theorem findBestCharacter_decoded_representative :
    findBestCharacter [1/2, 1/2, 1/2, 1/2, 1/2, 1/2]
      [⟨"a", [0, 0, 0, 0, 0, 0]⟩, ⟨"b", [1, 1, 1, 1, 1, 1]⟩] = "a" := by
  unfold findBestCharacter
  simp only [List.foldl_cons, List.foldl_nil]
  rw [if_neg (by rw [squaredDistance_six, squaredDistance_six]; norm_num)]

/-- The quantization key of the constant vector 33/64: every component falls
in bucket 16, packed as six 5-bit fields. -/
theorem generateCacheKey_colliding_query :
    generateCacheKey [33/64, 33/64, 33/64, 33/64, 33/64, 33/64] = 554189328 := by
  have hq : min (RANGE - 1) (Int.toNat ⌊max 0 (33/64 : ℝ) * (RANGE : ℝ)⌋) = 16 := by
    have h1 : max (0 : ℝ) (33/64) = 33/64 := max_eq_right (by norm_num)
    have h2 : (33/64 : ℝ) * (RANGE : ℝ) = 33/2 := by
      norm_num [RANGE, BITS]
    rw [h1, h2, show ⌊(33/2 : ℝ)⌋ = 16 by norm_num]
    rfl
  unfold generateCacheKey
  simp only [List.foldl_cons, List.foldl_nil]
  rw [hq]
  decide

/-- Decoding the packed key 554189328 yields the constant bucket
representative 1/2 in every dimension. -/
theorem specDecodedRepresentative_colliding_query :
    specDecodedRepresentative 554189328 = [1/2, 1/2, 1/2, 1/2, 1/2, 1/2] := by
  unfold specDecodedRepresentative
  rw [show List.range 6 = [0, 1, 2, 3, 4, 5] from rfl]
  simp only [List.map_cons, List.map_nil]
  norm_num [BITS, RANGE]
  refine ⟨?_, ?_, ?_, ?_, ?_, ?_⟩
  · rw [show ((554189328 : ℕ) >>> 25 &&& 31 : ℕ) = 16 from by decide]
    norm_num
  · rw [show ((554189328 : ℕ) >>> 20 &&& 31 : ℕ) = 16 from by decide]
    norm_num
  · rw [show ((554189328 : ℕ) >>> 15 &&& 31 : ℕ) = 16 from by decide]
    norm_num
  · rw [show ((554189328 : ℕ) >>> 10 &&& 31 : ℕ) = 16 from by decide]
    norm_num
  · rw [show ((554189328 : ℕ) >>> 5 &&& 31 : ℕ) = 16 from by decide]
    norm_num
  · rw [show ((554189328 : ℕ) &&& 31 : ℕ) = 16 from by decide]
    norm_num

/-- Counterexample to claim C2: on a fresh cache over the two-character
catalog, `findBest` of the constant vector 33/64 returns the scan of the
original vector ("b"), which differs from the uncached scan of the decoded
bucketed representative of its quantization key ("a", by tie-break at the
equidistant constant vector 1/2). -/
theorem cached_findBest_counterexample :
    ((⟨[], [⟨"a", [0, 0, 0, 0, 0, 0]⟩, ⟨"b", [1, 1, 1, 1, 1, 1]⟩]⟩ : LookupState).findBest
        [33/64, 33/64, 33/64, 33/64, 33/64, 33/64]).1 ≠
      findBestCharacter
        (specDecodedRepresentative
          (generateCacheKey [33/64, 33/64, 33/64, 33/64, 33/64, 33/64]))
        [⟨"a", [0, 0, 0, 0, 0, 0]⟩, ⟨"b", [1, 1, 1, 1, 1, 1]⟩] := by
  rw [findBest_of_lookup_none _ _ (by rfl)]
  rw [generateCacheKey_colliding_query, specDecodedRepresentative_colliding_query,
    findBestCharacter_decoded_representative]
  show findBestCharacter _ _ ≠ "a"
  rw [findBestCharacter_colliding_query]
  decide
